import Mathlib

/-
Verification of the microTOML reader (src/microtoml.py).

The Python source is shallowly embedded: Python strings are Lean `String`
(a list of characters), Python dicts are association lists preserving
insertion order, and the mutable "current section" cursor of `_parse_toml`
is represented by an explicit cursor value that names the mapping currently
receiving assignments (the root, the table bound at a name, or the last
element of the array bound at a name).  In the Python code the cursor is
reassigned by every header line and only header lines rebind root entries,
so the cursor never dangles; the `updTable`/`updArrLast` fallbacks below are
therefore unreachable from real parses.
-/

namespace Microtoml

/-- Values produced by `_parse_value`, plus `pynone` standing for Python's
`None` (the default of the lookup methods; never produced by parsing). -/
inductive PyVal where
  | pynone
  | str (s : String)
  | bool (b : Bool)
  | int (n : Int)
  | float (lit : String)
deriving Repr, DecidableEq

/-- An inner table: a flat insertion-ordered mapping from keys to values. -/
abbrev KVList := List (String × PyVal)

/-- A root-level entry of the parsed document: a scalar, a table `[name]`,
or an array-of-tables `[[name]]`. -/
inductive Entry where
  | scalar (v : PyVal)
  | table (t : KVList)
  | arr (ts : List KVList)
deriving Repr, DecidableEq

/-- The root mapping (`result` in `_parse_toml`). -/
abbrev Root := List (String × Entry)

/-- The parse-time section cursor (`current_section` in `_parse_toml`). -/
inductive Cursor where
  | root
  | inTable (name : String)
  | inArr (name : String)
deriving Repr, DecidableEq

/-- The state threaded through the line loop of `_parse_toml`. -/
structure St where
  root : Root
  cur : Cursor
deriving Repr, DecidableEq

/-- The double-quote character. -/
def dq : Char := Char.ofNat 34

/-- The single-quote character. -/
def sq : Char := Char.ofNat 39

/-- Characters Python's `str.splitlines` treats as line boundaries. -/
def lineBreakChars : List Char :=
  ['\n', '\r', '\u000b', '\u000c', '\u001c', '\u001d', '\u001e',
   '\u0085', ' ', ' ']

/-- Worker for `pySplitlines`: accumulates the current line in reverse. -/
def splitlinesAux : List Char → List Char → List String
  | [], acc => if acc.isEmpty then [] else [String.mk acc.reverse]
  | '\r' :: '\n' :: rest, acc => String.mk acc.reverse :: splitlinesAux rest []
  | c :: rest, acc =>
      if lineBreakChars.contains c then
        String.mk acc.reverse :: splitlinesAux rest []
      else
        splitlinesAux rest (c :: acc)

/-- Python `str.splitlines()`: split at line boundaries, `\r\n` counting as
one boundary, with no empty final line for a trailing terminator. -/
def pySplitlines (s : String) : List String :=
  splitlinesAux s.data []

/-- Characters Python's `str.strip()` (no argument) removes. -/
def isPySpace (c : Char) : Bool :=
  [' ', '\t', '\n', '\r', '\u000b', '\u000c',
   '\u001c', '\u001d', '\u001e', '\u001f',
   '\u0085', ' ', ' ',
   ' ', ' ', ' ', ' ', ' ', ' ',
   ' ', ' ', ' ', ' ', ' ',
   ' ', ' ', ' ', ' ', '　'].contains c

/-- Strip whitespace from both ends of a character list. -/
def pyStripChars (cs : List Char) : List Char :=
  ((cs.dropWhile isPySpace).reverse.dropWhile isPySpace).reverse

/-- Python `str.strip()`. -/
def pyStrip (s : String) : String :=
  String.mk (pyStripChars s.data)

/-- Does the second list start with the first? -/
def startsChars : List Char → List Char → Bool
  | [], _ => true
  | _ :: _, [] => false
  | p :: ps, c :: cs => p == c && startsChars ps cs

/-- Python `s.startswith(pre)`. -/
def pyStarts (pre s : String) : Bool := startsChars pre.data s.data

/-- Python `s.endswith(suf)`. -/
def pyEnds (suf s : String) : Bool := startsChars suf.data.reverse s.data.reverse

/-- Python `str.lower()` (ASCII letters, which is all the parser compares). -/
def pyLower (s : String) : String := String.mk (s.data.map Char.toLower)

/-- Index of the first occurrence of a character, as Python `str.find`
(with `none` for Python's `-1`). -/
def pyIdxOf : List Char → Char → Option Nat
  | [], _ => Option.none
  | c :: cs, d => if c = d then some 0 else (pyIdxOf cs d).map (· + 1)

/-- Python slice `s[1:-1]`. -/
def pyInner1 (s : String) : String := String.mk ((s.data.drop 1).dropLast)

/-- Python slice `s[2:-2]`. -/
def pyInner2 (s : String) : String :=
  String.mk (((s.data.drop 2).dropLast).dropLast)

/-- Python `d.get(k)` on an insertion-ordered mapping. -/
def dictGet {α : Type} : List (String × α) → String → Option α
  | [], _ => Option.none
  | (k', v') :: rest, k => if k' = k then some v' else dictGet rest k

/-- Python `d[k] = v`: rebind in place when the key exists (keeping its
position, as CPython dicts do), otherwise append at the end. -/
def dictSet {α : Type} : List (String × α) → String → α → List (String × α)
  | [], k, v => [(k, v)]
  | (k', v') :: rest, k, v =>
      if k' = k then (k, v) :: rest else (k', v') :: dictSet rest k v

/-- The quoted-string test of `_parse_value`: first and last character are
both `"` or both a single quote (`value_str[0]`/`value_str[-1]`). -/
def quoteShape (s : String) : Bool :=
  (s.data.head? == some dq && s.data.getLast? == some dq) ||
  (s.data.head? == some sq && s.data.getLast? == some sq)

/-- Python `value_str.replace("_", "")`. -/
def stripUnderscores (s : String) : String :=
  String.mk (s.data.filter (fun c => c ≠ '_'))

/-- Read a nonempty all-digit character list as a natural number. -/
def digitsToNat (cs : List Char) : Option Nat :=
  if cs.isEmpty then Option.none
  else if cs.all Char.isDigit then
    some (cs.foldl (fun a c => a * 10 + (c.toNat - 48)) 0)
  else Option.none

/-- Python `int(s)` on a decimal string: surrounding whitespace is allowed,
then an optional sign and at least one digit; anything else raises (here:
`none`).  The parser only calls this after removing every underscore, so
underscore-separator handling is irrelevant and omitted. -/
def pyIntOfString? (s : String) : Option Int :=
  match pyStripChars s.data with
  | [] => Option.none
  | c :: rest =>
      if c = '+' then (digitsToNat rest).map Int.ofNat
      else if c = '-' then (digitsToNat rest).map (fun n => -(n : Int))
      else (digitsToNat (c :: rest)).map Int.ofNat

/-- Is every character a decimal digit? -/
def allDigits (cs : List Char) : Bool := cs.all Char.isDigit

/-- A decimal mantissa for Python `float`: digits with at most one dot and
at least one digit overall. -/
def decMantissa (cs : List Char) : Bool :=
  if cs.contains '.' then
    let pre := cs.takeWhile (fun c => c != '.')
    let post := (cs.dropWhile (fun c => c != '.')).tail
    if post.contains '.' then false
    else allDigits pre && allDigits post && (!pre.isEmpty || !post.isEmpty)
  else allDigits cs && !cs.isEmpty

/-- A float exponent (the part after `e`/`E`): optional sign, then at least
one digit. -/
def expValid (cs : List Char) : Bool :=
  match cs with
  | [] => false
  | c :: r =>
      if c = '+' || c = '-' then allDigits r && !r.isEmpty
      else allDigits cs && !cs.isEmpty

/-- Split at the first `e`/`E`, when present. -/
def splitExp (cs : List Char) : List Char × Option (List Char) :=
  let pre := cs.takeWhile (fun c => c != 'e' && c != 'E')
  match cs.dropWhile (fun c => c != 'e' && c != 'E') with
  | [] => (pre, Option.none)
  | _ :: r => (pre, some r)

/-- Python `float` body after the optional sign: `inf`/`infinity`/`nan`
(case-insensitive) or a mantissa with optional exponent. -/
def pyFloatCore (cs : List Char) : Bool :=
  let lower := cs.map Char.toLower
  if lower = "inf".data || lower = "infinity".data || lower = "nan".data then
    true
  else
    match splitExp cs with
    | (m, Option.none) => decMantissa m
    | (m, some e) => decMantissa m && expValid e

/-- Does Python `float(s)` succeed on this string? -/
def pyFloatValid (s : String) : Bool :=
  match pyStripChars s.data with
  | [] => false
  | c :: r => if c = '+' || c = '-' then pyFloatCore r else pyFloatCore (c :: r)

/-- `TOML._parse_value`: empty stays the empty string; a quote-shaped string
loses its first and last character (`value_str[1:-1]`, verbatim interior);
`true`/`false` case-insensitively become booleans; otherwise underscores are
removed and an integer parse, then a float parse, is attempted, falling back
to the original string.  A float is represented by the literal handed to
Python's `float` (its numeric value plays no role in any claim). -/
def parse_value (value_str : String) : PyVal :=
  if value_str = "" then .str ""
  else if quoteShape value_str then .str (pyInner1 value_str)
  else
    let lower := pyLower value_str
    if lower = "true" then .bool true
    else if lower = "false" then .bool false
    else
      let num_candidate := stripUnderscores value_str
      match pyIntOfString? num_candidate with
      | some n => .int n
      | Option.none =>
          if pyFloatValid num_candidate then .float num_candidate
          else .str value_str

/-- The classification `_parse_toml` gives one stripped line, in source
order: blank, comment, `[[...]]` header, `[...]` header, key/value at the
first `=`, or unusable (`junk`: no `=`, or empty key). -/
inductive LineKind where
  | skip
  | junk
  | arrHeader (name : String)
  | tblHeader (name : String)
  | kv (key : String) (value_str : String)
deriving Repr, DecidableEq

/-- Classify one stripped line exactly as the branch cascade of
`_parse_toml` does. -/
def classifyLine (line : String) : LineKind :=
  if line = "" then .skip
  else if pyStarts "#" line then .skip
  else if pyStarts "[[" line && pyEnds "]]" line then
    .arrHeader (pyStrip (pyInner2 line))
  else if pyStarts "[" line && pyEnds "]" line then
    .tblHeader (pyStrip (pyInner1 line))
  else
    match pyIdxOf line.data '=' with
    | Option.none => .junk
    | some i =>
        let key := pyStrip (String.mk (line.data.take i))
        let v := pyStrip (String.mk (line.data.drop (i + 1)))
        if key = "" then .junk else .kv key v

/-- The list bound at `name`, or `[]` when `name` is absent or bound to a
non-array (`arr = result.get(name); if not isinstance(arr, list): arr = []`). -/
def getArr (r : Root) (n : String) : List KVList :=
  match dictGet r n with
  | some (.arr ts) => ts
  | _ => []

/-- The table bound at `name`, or `{}` when `name` is absent or bound to a
non-table (`table = result.get(name); if not isinstance(table, dict): ...`). -/
def getTbl (r : Root) (n : String) : KVList :=
  match dictGet r n with
  | some (.table t) => t
  | _ => []

/-- Assign into the last element of an array of tables. -/
def updLast : List KVList → String → PyVal → List KVList
  | [], _, _ => []
  | [t], k, v => [dictSet t k v]
  | t :: rest, k, v => t :: updLast rest k v

/-- Assign through a cursor that points at the table bound at `n`.  The
fallback arm is unreachable: the cursor names a table only while one is
bound there. -/
def updTable (r : Root) (n k : String) (v : PyVal) : Root :=
  match dictGet r n with
  | some (.table t) => dictSet r n (.table (dictSet t k v))
  | _ => r

/-- Assign through a cursor that points at the last element of the array
bound at `n`.  The fallback arm is unreachable. -/
def updArrLast (r : Root) (n k : String) (v : PyVal) : Root :=
  match dictGet r n with
  | some (.arr ts) => dictSet r n (.arr (updLast ts k v))
  | _ => r

/-- `current_section[key] = value`: assign through the cursor. -/
def applyKV (st : St) (k : String) (v : PyVal) : St :=
  match st.cur with
  | .root => ⟨dictSet st.root k (.scalar v), st.cur⟩
  | .inTable n => ⟨updTable st.root n k v, st.cur⟩
  | .inArr n => ⟨updArrLast st.root n k v, st.cur⟩

/-- One iteration of the line loop of `_parse_toml`. -/
def processLine (st : St) (raw_line : String) : St :=
  match classifyLine (pyStrip raw_line) with
  | .skip => st
  | .junk => st
  | .arrHeader n =>
      if n = "" then ⟨st.root, .root⟩
      else ⟨dictSet st.root n (.arr (getArr st.root n ++ [[]])), .inArr n⟩
  | .tblHeader n =>
      if n = "" then ⟨st.root, .root⟩
      else ⟨dictSet st.root n (.table (getTbl st.root n)), .inTable n⟩
  | .kv k v => applyKV st k (parse_value v)

/-- Fold the line loop over a list of raw lines. -/
def parseLines (lines : List String) (st : St) : St :=
  lines.foldl processLine st

/-- The full parse state after `_parse_toml`, starting at the root with an
empty result. -/
def parseSt (toml_str : String) : St :=
  parseLines (pySplitlines toml_str) ⟨[], .root⟩

/-- `TOML._parse_toml`: the root mapping built from the document text. -/
def parse_toml (toml_str : String) : Root :=
  (parseSt toml_str).root

/-- The bound getter returned for a table section: `table.get(key, default)`. -/
def tableGet (t : KVList) (key : String) (dflt : PyVal) : PyVal :=
  match dictGet t key with
  | some v => v
  | Option.none => dflt

/-- What `TOML.__getattr__` hands back on success: a getter closed over a
table, or the list of element tables returned directly. -/
inductive SectionVal where
  | getterOf (t : KVList)
  | arrOf (ts : List KVList)
deriving Repr, DecidableEq

/-- `TOML.__getattr__`: a table yields its bound getter, an array of tables
is returned directly, anything else raises `AttributeError`. -/
def getattr (r : Root) (attr : String) : Except String SectionVal :=
  match dictGet r attr with
  | some (.table t) => .ok (.getterOf t)
  | some (.arr ts) => .ok (.arrOf ts)
  | _ => .error ("No such section: " ++ attr)

/-- `TOML.__call__`: global scalar lookup.  Tables and arrays are not
scalar values, and a stored `None` (never produced by parsing) would fall
back to the default, mirroring `value if value is not None else default`. -/
def call (r : Root) (key : String) (dflt : PyVal) : PyVal :=
  match dictGet r key with
  | some (.table _) => dflt
  | some (.arr _) => dflt
  | some (.scalar v) => if v = .pynone then dflt else v
  | Option.none => dflt

/-- Does this value represent Python `None`? -/
def isNoneVal : PyVal → Bool
  | .pynone => true
  | _ => false

/-- Is this line kind a section header of either form? -/
def isHeaderKind : LineKind → Bool
  | .arrHeader _ => true
  | .tblHeader _ => true
  | _ => false

/-- Does this stripped line rebind `n` at the root to something other than
an array: a `[n]` simple-table header, or a key/value line with key `n`
(which overwrites the root entry whenever the cursor sits at the root)? -/
def rebindsName (line : String) (n : String) : Bool :=
  match classifyLine line with
  | .tblHeader m => m == n
  | .kv k _ => k == n
  | _ => false

/-- How many raw lines classify as a `[[n]]` header. -/
def countArrHeader (lines : List String) (n : String) : Nat :=
  lines.countP (fun raw => classifyLine (pyStrip raw) == LineKind.arrHeader n)

/-- Scalars stored at the root are never Python `None`. -/
def rootScalarsOK (r : Root) : Prop :=
  ∀ k v, dictGet r k = some (Entry.scalar v) → v ≠ PyVal.pynone

/-! Lemmas about the association-list dictionary. -/

theorem dictGet_dictSet_self {α : Type} (r : List (String × α)) (k : String)
    (v : α) : dictGet (dictSet r k v) k = some v := by
  induction r with
  | nil => simp [dictSet, dictGet]
  | cons hd tl ih =>
      obtain ⟨k', v'⟩ := hd
      by_cases h : k' = k
      · simp [dictSet, h, dictGet]
      · simp [dictSet, h, dictGet, ih]

theorem dictGet_dictSet_ne {α : Type} (r : List (String × α)) {k k' : String}
    (v : α) (h : k ≠ k') : dictGet (dictSet r k v) k' = dictGet r k' := by
  induction r with
  | nil => simp [dictSet, dictGet, h]
  | cons hd tl ih =>
      obtain ⟨k'', v'⟩ := hd
      by_cases h2 : k'' = k
      · subst h2; simp [dictSet, dictGet, h]
      · by_cases h3 : k'' = k'
        · subst h3; simp [dictSet, dictGet, h2]
        · simp [dictSet, dictGet, h2, h3, ih]

theorem updLast_length (ts : List KVList) (k : String) (v : PyVal) :
    (updLast ts k v).length = ts.length := by
  induction ts with
  | nil => simp [updLast]
  | cons t rest ih =>
      cases rest with
      | nil => simp [updLast]
      | cons t2 r2 => simpa [updLast] using ih

/-! How assignments through the cursor affect the array bound at a name. -/

theorem getArr_dictSet_self (r : Root) (n : String) (ts : List KVList) :
    getArr (dictSet r n (Entry.arr ts)) n = ts := by
  simp [getArr, dictGet_dictSet_self]

theorem getArr_dictSet_ne (r : Root) {m n : String} (e : Entry) (h : m ≠ n) :
    getArr (dictSet r m e) n = getArr r n := by
  simp [getArr, dictGet_dictSet_ne r e h]

theorem getArr_updTable (r : Root) (m k : String) (v : PyVal) (n : String) :
    getArr (updTable r m k v) n = getArr r n := by
  unfold updTable
  split
  · next t heq =>
      by_cases hmn : m = n
      · subst hmn
        simp [getArr, dictGet_dictSet_self, heq]
      · exact getArr_dictSet_ne r _ hmn
  · rfl

theorem arrLen_updArrLast (r : Root) (m k : String) (v : PyVal) (n : String) :
    (getArr (updArrLast r m k v) n).length = (getArr r n).length := by
  unfold updArrLast
  split
  · next ts heq =>
      by_cases hmn : m = n
      · subst hmn
        simp [getArr, dictGet_dictSet_self, heq, updLast_length]
      · rw [getArr_dictSet_ne r _ hmn]
  · rfl

/-! Lemmas about value coercion. -/

theorem parse_value_ne_pynone (s : String) : parse_value s ≠ PyVal.pynone := by
  simp only [parse_value]
  repeat' split
  all_goals simp

theorem mem_dropWhile_of {p : Char → Bool} {c : Char} (hc : p c = false) :
    ∀ {l : List Char}, c ∈ l → c ∈ l.dropWhile p := by
  intro l hl
  induction l with
  | nil => exact absurd hl (by simp)
  | cons a t ih =>
      by_cases ha : p a = true
      · rw [List.dropWhile_cons_of_pos ha]
        rcases List.mem_cons.mp hl with h | h
        · subst h; rw [hc] at ha; cases ha
        · exact ih h
      · rw [List.dropWhile_cons_of_neg ha]
        exact hl

theorem mem_pyStripChars {c : Char} {cs : List Char} (hsp : isPySpace c = false)
    (hc : c ∈ cs) : c ∈ pyStripChars cs := by
  unfold pyStripChars
  rw [List.mem_reverse]
  exact mem_dropWhile_of hsp (List.mem_reverse.mpr (mem_dropWhile_of hsp hc))

theorem digitsToNat_none {c : Char} {cs : List Char} (hc : c ∈ cs)
    (hd : c.isDigit = false) : digitsToNat cs = Option.none := by
  unfold digitsToNat
  have h1 : cs.isEmpty = false := by
    cases cs
    · exact absurd hc (by simp)
    · rfl
  have h2 : cs.all Char.isDigit = false := by
    by_contra h
    have h' : cs.all Char.isDigit = true := by
      cases hall : cs.all Char.isDigit
      · exact absurd hall h
      · rfl
    have := List.all_eq_true.mp h' c hc
    rw [hd] at this
    cases this
  simp [h1, h2]

theorem pyInt_none_of_mem {s : String} {c : Char} (hc : c ∈ s.data)
    (hsp : isPySpace c = false) (hd : c.isDigit = false)
    (hp : c ≠ '+') (hm : c ≠ '-') : pyIntOfString? s = Option.none := by
  have hmem := mem_pyStripChars hsp hc
  unfold pyIntOfString?
  cases h : pyStripChars s.data with
  | nil => rfl
  | cons a rest =>
      rw [h] at hmem
      by_cases ha : a = '+'
      · have hcr : c ∈ rest := by
          rcases List.mem_cons.mp hmem with h' | h'
          · exact absurd (h'.trans ha) hp
          · exact h'
        simp [ha, digitsToNat_none hcr hd]
      · by_cases hb : a = '-'
        · have hcr : c ∈ rest := by
            rcases List.mem_cons.mp hmem with h' | h'
            · exact absurd (h'.trans hb) hm
            · exact h'
          simp [ha, hb, digitsToNat_none hcr hd]
        · simp [ha, hb, digitsToNat_none hmem hd]

/-! The no-`None` invariant of the root mapping. -/

theorem rootOK_nil : rootScalarsOK [] := by
  intro k v h
  simp [dictGet] at h

theorem rootOK_set_scalar {r : Root} (h : rootScalarsOK r) {v : PyVal}
    (hv : v ≠ PyVal.pynone) (k : String) :
    rootScalarsOK (dictSet r k (Entry.scalar v)) := by
  intro k' w hw
  by_cases hk : k = k'
  · subst hk
    rw [dictGet_dictSet_self] at hw
    injection hw with hw'
    injection hw' with hw''
    rw [← hw'']
    exact hv
  · rw [dictGet_dictSet_ne r _ hk] at hw
    exact h k' w hw

theorem rootOK_set_table {r : Root} (h : rootScalarsOK r) (k : String)
    (t : KVList) : rootScalarsOK (dictSet r k (Entry.table t)) := by
  intro k' w hw
  by_cases hk : k = k'
  · subst hk
    rw [dictGet_dictSet_self] at hw
    cases hw
  · rw [dictGet_dictSet_ne r _ hk] at hw
    exact h k' w hw

theorem rootOK_set_arr {r : Root} (h : rootScalarsOK r) (k : String)
    (ts : List KVList) : rootScalarsOK (dictSet r k (Entry.arr ts)) := by
  intro k' w hw
  by_cases hk : k = k'
  · subst hk
    rw [dictGet_dictSet_self] at hw
    cases hw
  · rw [dictGet_dictSet_ne r _ hk] at hw
    exact h k' w hw

theorem rootOK_updTable {r : Root} (h : rootScalarsOK r) (n k : String)
    (v : PyVal) : rootScalarsOK (updTable r n k v) := by
  unfold updTable
  split
  · exact rootOK_set_table h n _
  · exact h

theorem rootOK_updArrLast {r : Root} (h : rootScalarsOK r) (n k : String)
    (v : PyVal) : rootScalarsOK (updArrLast r n k v) := by
  unfold updArrLast
  split
  · exact rootOK_set_arr h n _
  · exact h

theorem rootOK_processLine {st : St} (h : rootScalarsOK st.root)
    (raw : String) : rootScalarsOK (processLine st raw).root := by
  unfold processLine
  cases classifyLine (pyStrip raw) with
  | skip => exact h
  | junk => exact h
  | arrHeader n =>
      by_cases hn : n = ""
      · simp only [hn, if_pos rfl]; exact h
      · simp only [if_neg hn]; exact rootOK_set_arr h n _
  | tblHeader n =>
      by_cases hn : n = ""
      · simp only [hn, if_pos rfl]; exact h
      · simp only [if_neg hn]; exact rootOK_set_table h n _
  | kv k v =>
      unfold applyKV
      cases st.cur with
      | root => exact rootOK_set_scalar h (parse_value_ne_pynone v) k
      | inTable n => exact rootOK_updTable h n k _
      | inArr n => exact rootOK_updArrLast h n k _

theorem rootOK_parseLines (lines : List String) {st : St}
    (h : rootScalarsOK st.root) : rootScalarsOK (parseLines lines st).root := by
  induction lines generalizing st with
  | nil => exact h
  | cons raw rest ih =>
      rw [parseLines, List.foldl_cons]
      exact ih (rootOK_processLine h raw)

theorem rootOK_parse_toml (s : String) : rootScalarsOK (parse_toml s) :=
  rootOK_parseLines (pySplitlines s) rootOK_nil

/-! Cursor behavior. -/

theorem cur_processLine {st : St} {raw : String}
    (h : isHeaderKind (classifyLine (pyStrip raw)) = false) :
    (processLine st raw).cur = st.cur := by
  unfold processLine
  cases hcl : classifyLine (pyStrip raw) with
  | skip => rfl
  | junk => rfl
  | arrHeader n => rw [hcl] at h; cases h
  | tblHeader n => rw [hcl] at h; cases h
  | kv k v =>
      unfold applyKV
      cases st.cur <;> rfl

theorem cur_parseLines (lines : List String) {st : St}
    (h : ∀ raw ∈ lines, isHeaderKind (classifyLine (pyStrip raw)) = false) :
    (parseLines lines st).cur = st.cur := by
  induction lines generalizing st with
  | nil => rfl
  | cons raw rest ih =>
      rw [parseLines, List.foldl_cons]
      rw [show (List.foldl processLine (processLine st raw) rest)
            = parseLines rest (processLine st raw) from rfl]
      rw [ih (fun l hl => h l (List.mem_cons_of_mem _ hl))]
      exact cur_processLine (h raw (List.mem_cons_self _ _))

/-! Counting `[[n]]` headers: each one grows the array at `n` by one, and no
other line changes that array's length unless it rebinds `n` at the root. -/

theorem arrLen_processLine (st : St) (raw : String) {n : String} (hn : n ≠ "")
    (hr : rebindsName (pyStrip raw) n = false) :
    (getArr (processLine st raw).root n).length =
      (getArr st.root n).length +
        (if classifyLine (pyStrip raw) = LineKind.arrHeader n then 1 else 0) := by
  unfold processLine
  unfold rebindsName at hr
  cases hcl : classifyLine (pyStrip raw) with
  | skip => simp
  | junk => simp
  | arrHeader m =>
      by_cases hm : m = ""
      · subst hm
        have hne : ¬ (LineKind.arrHeader "" = LineKind.arrHeader n) := by
          intro hcon
          injection hcon with h'
          exact hn h'.symm
        simp [hne]
      · by_cases hmn : m = n
        · subst hmn
          simp [hm, getArr_dictSet_self]
        · have hne : ¬ (LineKind.arrHeader m = LineKind.arrHeader n) := by
            intro hcon
            injection hcon with h'
            exact hmn h'
          simp [hm, hne, getArr_dictSet_ne st.root _ hmn]
  | tblHeader m =>
      rw [hcl] at hr
      simp only [] at hr
      have hmn : m ≠ n := by
        intro h'
        rw [h'] at hr
        simp at hr
      by_cases hm : m = ""
      · subst hm; simp
      · simp [hm, getArr_dictSet_ne st.root _ hmn]
  | kv k v =>
      rw [hcl] at hr
      simp only [] at hr
      have hkn : k ≠ n := by
        intro h'
        rw [h'] at hr
        simp at hr
      unfold applyKV
      cases st.cur with
      | root => simp [getArr_dictSet_ne st.root _ hkn]
      | inTable m => simp [getArr_updTable]
      | inArr m => simp [arrLen_updArrLast]

theorem arrLen_parseLines (lines : List String) (st : St) {n : String}
    (hn : n ≠ "") (h : ∀ raw ∈ lines, rebindsName (pyStrip raw) n = false) :
    (getArr (parseLines lines st).root n).length =
      (getArr st.root n).length + countArrHeader lines n := by
  induction lines generalizing st with
  | nil => simp [parseLines, countArrHeader]
  | cons raw rest ih =>
      rw [parseLines, List.foldl_cons]
      rw [show (List.foldl processLine (processLine st raw) rest)
            = parseLines rest (processLine st raw) from rfl]
      rw [ih (processLine st raw) (fun l hl => h l (List.mem_cons_of_mem _ hl))]
      rw [arrLen_processLine st raw hn (h raw (List.mem_cons_self _ _))]
      unfold countArrHeader
      rw [List.countP_cons]
      by_cases hc : classifyLine (pyStrip raw) = LineKind.arrHeader n
      · simp [hc]; omega
      · simp [hc]

/-! The claims. -/

/-- C1: when a name is bound to a TableArray, section access returns the
ordered sequence of element tables directly, and each element supports the
`(key, default)` lookup of a Table getter: the stored value for `key`, or
`default` when absent.  The concrete conjuncts replay the spec scenario
`[[pt]] x=1 y=2 [[pt]] x=3 y=4`. -/
theorem spec_C1 :
    (∀ r n ts, dictGet r n = some (Entry.arr ts) →
       getattr r n = Except.ok (SectionVal.arrOf ts))
  ∧ (∀ t k dflt, tableGet t k dflt =
       match dictGet t k with
       | some v => v
       | Option.none => dflt)
  ∧ getattr (parse_toml "[[pt]]\nx = 1\ny = 2\n[[pt]]\nx = 3\ny = 4\n") "pt"
      = Except.ok (SectionVal.arrOf
          [[("x", PyVal.int 1), ("y", PyVal.int 2)],
           [("x", PyVal.int 3), ("y", PyVal.int 4)]])
  ∧ tableGet [("x", PyVal.int 1), ("y", PyVal.int 2)] "x" PyVal.pynone
      = PyVal.int 1
  ∧ tableGet [("x", PyVal.int 1), ("y", PyVal.int 2)] "y" PyVal.pynone
      = PyVal.int 2
  ∧ tableGet [("x", PyVal.int 3), ("y", PyVal.int 4)] "x" PyVal.pynone
      = PyVal.int 3
  ∧ tableGet [("x", PyVal.int 3), ("y", PyVal.int 4)] "y" PyVal.pynone
      = PyVal.int 4 := by
  refine ⟨?_, ?_, by rfl, by decide, by decide, by decide, by decide⟩
  · intro r n ts h
    unfold getattr
    rw [h]
  · intro t k dflt
    rfl

/-- C1 witness: the general clause applied at a one-element document. -/
theorem spec_C1_witness :
    getattr [("pt", Entry.arr [[]])] "pt" = Except.ok (SectionVal.arrOf [[]]) :=
  spec_C1.1 _ "pt" [[]] (by decide)

/-- C2 counterexample: `[[a]]` creates a TableArray under `a`, but the later
`[a]` header of the same document replaces that entry with a fresh Table
(which then receives `x = 1`), so a TableArray is not type-stable. -/
theorem spec_C2_cex :
    dictGet (parse_toml "[[a]]") "a" = some (Entry.arr [[]])
  ∧ dictGet (parse_toml "[[a]]\n[a]\nx = 1") "a"
      = some (Entry.table [("x", PyVal.int 1)]) :=
  ⟨by decide, by decide⟩

/-- C2 amended: a later `[[name]]` header never replaces an existing
TableArray (it appends to it), but a later `[name]` header rebinds the name
to a Table (fresh unless a Table was already there), and a root-level
key/value line rebinds it to a Scalar; type stability does not hold against
those two line forms. -/
theorem spec_C2 :
    (∀ st raw n ts, classifyLine (pyStrip raw) = LineKind.arrHeader n →
       n ≠ "" → dictGet st.root n = some (Entry.arr ts) →
       (processLine st raw).root = dictSet st.root n (Entry.arr (ts ++ [[]])))
  ∧ (∀ st raw n, classifyLine (pyStrip raw) = LineKind.tblHeader n → n ≠ "" →
       (processLine st raw).root
         = dictSet st.root n (Entry.table (getTbl st.root n)))
  ∧ (∀ r raw k v, classifyLine (pyStrip raw) = LineKind.kv k v →
       (processLine ⟨r, Cursor.root⟩ raw).root
         = dictSet r k (Entry.scalar (parse_value v))) := by
  refine ⟨?_, ?_, ?_⟩
  · intro st raw n ts hcl hn hget
    unfold processLine
    rw [hcl]
    simp [hn, getArr, hget]
  · intro st raw n hcl hn
    unfold processLine
    rw [hcl]
    simp [hn]
  · intro r raw k v hcl
    unfold processLine
    rw [hcl]
    rfl

/-- C2 witness: an `[[a]]` header appends to the existing array. -/
theorem spec_C2_witness :
    (processLine ⟨[("a", Entry.arr [[]])], Cursor.inArr "a"⟩ "[[a]]").root
      = dictSet [("a", Entry.arr [[]])] "a" (Entry.arr ([[]] ++ [[]])) :=
  spec_C2.1 ⟨[("a", Entry.arr [[]])], Cursor.inArr "a"⟩ "[[a]]" "a" [[]]
    (by decide) (by decide) (by decide)

/-- C3 counterexample: the code has no minimum-length check, so the
length-1 string consisting of one double-quote character is treated as
quoted (its single character is both the opening and the closing quote) and
`value_str[1:-1]` yields the empty string, not the fallback string `"`. -/
theorem spec_C3_cex : parse_value "\"" = PyVal.str "" := by decide

/-- C3 amended: coercion treats a value as a quoted string exactly when its
first and last characters are the same quote character (both `"` or both
`'`), with no minimum length; it then returns the Python slice
`value_str[1:-1]` — the interior verbatim, no escape processing — which for
a length-1 quote string is the empty string. -/
theorem spec_C3 (s : String) (h : quoteShape s = true) :
    parse_value s = PyVal.str (pyInner1 s) := by
  have hne : s ≠ "" := by
    intro he
    rw [he] at h
    exact absurd h (by decide)
  unfold parse_value
  rw [if_neg hne, if_pos h]

/-- C3 witness: a well-formed quoted string loses exactly its two quotes. -/
theorem spec_C3_witness : parse_value "\"ab\"" = PyVal.str "ab" :=
  (spec_C3 "\"ab\"" (by decide)).trans (by decide)

/-- C4: global scalar lookup returns the stored value when the key is bound
to a Scalar at the root, and the caller-supplied default — never the raw
structure — when the key is bound to a Table or TableArray or absent.  (A
parsed document never stores Python `None`, so the `is not None` test in
`__call__` never masks a stored scalar.) -/
theorem spec_C4 (s key : String) (dflt : PyVal) :
    call (parse_toml s) key dflt =
      match dictGet (parse_toml s) key with
      | some (Entry.scalar v) => v
      | some (Entry.table _) => dflt
      | some (Entry.arr _) => dflt
      | Option.none => dflt := by
  have hOK := rootOK_parse_toml s
  unfold call
  cases h : dictGet (parse_toml s) key with
  | none => rfl
  | some e =>
      cases e with
      | scalar v =>
          have hv := hOK key v h
          simp [hv]
      | table t => rfl
      | arr ts => rfl

/-- C5: section lookup fails (raises `AttributeError`, the `NoSuchSection`
failure) exactly when the name is absent from the root or bound to a
Scalar; a Table yields its bound getter, which performs plain mapping
lookup with fallback to the default (a total function, so it never raises);
a TableArray does not raise. -/
theorem spec_C5 (s n : String) :
    ((∃ msg, getattr (parse_toml s) n = Except.error msg) ↔
       dictGet (parse_toml s) n = Option.none ∨
         ∃ v, dictGet (parse_toml s) n = some (Entry.scalar v))
  ∧ (∀ t, dictGet (parse_toml s) n = some (Entry.table t) →
       getattr (parse_toml s) n = Except.ok (SectionVal.getterOf t) ∧
         ∀ k dflt, tableGet t k dflt =
           match dictGet t k with
           | some v => v
           | Option.none => dflt)
  ∧ (∀ ts, dictGet (parse_toml s) n = some (Entry.arr ts) →
       getattr (parse_toml s) n = Except.ok (SectionVal.arrOf ts)) := by
  unfold getattr
  cases h : dictGet (parse_toml s) n with
  | none =>
      refine ⟨⟨fun _ => Or.inl rfl, fun _ => ⟨_, rfl⟩⟩, ?_, ?_⟩
      · intro t ht; simp at ht
      · intro ts hts; simp at hts
  | some e =>
      cases e with
      | scalar v =>
          refine ⟨⟨fun _ => Or.inr ⟨v, rfl⟩, fun _ => ⟨_, rfl⟩⟩, ?_, ?_⟩
          · intro t ht; simp at ht
          · intro ts hts; simp at hts
      | table t =>
          refine ⟨⟨?_, ?_⟩, ?_, ?_⟩
          · rintro ⟨msg, hmsg⟩; simp at hmsg
          · rintro (hc | ⟨v, hv⟩)
            · simp at hc
            · simp at hv
          · intro t' ht'
            simp only [Option.some.injEq, Entry.table.injEq] at ht'
            subst ht'
            exact ⟨rfl, fun k dflt => rfl⟩
          · intro ts hts; simp at hts
      | arr ts =>
          refine ⟨⟨?_, ?_⟩, ?_, ?_⟩
          · rintro ⟨msg, hmsg⟩; simp at hmsg
          · rintro (hc | ⟨v, hv⟩)
            · simp at hc
            · simp at hv
          · intro t' ht'; simp at ht'
          · intro ts' hts'
            simp only [Option.some.injEq, Entry.arr.injEq] at hts'
            subst hts'
            rfl

/-- C5 witness: looking up an absent section name yields the failure. -/
theorem spec_C5_witness :
    ∃ msg, getattr (parse_toml "x = 1") "nope" = Except.error msg :=
  (spec_C5 "x = 1" "nope").1.mpr (Or.inl (by decide))

/-- C6: for an unquoted, non-boolean, non-empty value string, coercion
removes every underscore, then tries a strict base-10 integer parse (which
rejects any string containing `.` or an exponent marker), then the float
parse, and otherwise falls back to the original string with its underscores
intact; `1_000` coerces to the integer 1000. -/
theorem spec_C6 :
    parse_value "1_000" = PyVal.int 1000
  ∧ (∀ s, '.' ∈ s.data → pyIntOfString? s = Option.none)
  ∧ (∀ s, 'e' ∈ s.data ∨ 'E' ∈ s.data → pyIntOfString? s = Option.none)
  ∧ (∀ v, v ≠ "" → quoteShape v = false → pyLower v ≠ "true" →
       pyLower v ≠ "false" →
       parse_value v =
         match pyIntOfString? (stripUnderscores v) with
         | some n => PyVal.int n
         | Option.none =>
             if pyFloatValid (stripUnderscores v) then
               PyVal.float (stripUnderscores v)
             else PyVal.str v) := by
  refine ⟨by decide, ?_, ?_, ?_⟩
  · intro s hc
    exact pyInt_none_of_mem hc (by decide) (by decide) (by decide) (by decide)
  · intro s hc
    rcases hc with hc | hc
    · exact pyInt_none_of_mem hc (by decide) (by decide) (by decide) (by decide)
    · exact pyInt_none_of_mem hc (by decide) (by decide) (by decide) (by decide)
  · intro v h1 h2 h3 h4
    simp only [parse_value]
    rw [if_neg h1, if_neg (by simp [h2]), if_neg h3, if_neg h4]

/-- C6 witness: a dotted literal fails the integer parse and lands in the
float branch. -/
theorem spec_C6_witness :
    pyIntOfString? "2.5" = Option.none ∧ parse_value "2.5" = PyVal.float "2.5" := by
  have h1 := spec_C6.2.1 "2.5" (by decide)
  have h2 := spec_C6.2.2.2 "2.5" (by decide) (by decide) (by decide) (by decide)
  exact ⟨h1, h2.trans (by decide)⟩

/-- C7 counterexample: the input `[[a]] [a] [[a]]` has two `[[a]]` header
occurrences, yet the final array bound to `a` is `[[]]`, of length 1: the
intervening `[a]` header replaced the first array, so "length N after N
occurrences" fails. -/
theorem spec_C7_cex :
    dictGet (parse_toml "[[a]]\n[a]\n[[a]]") "a" = some (Entry.arr [[]])
  ∧ countArrHeader (pySplitlines "[[a]]\n[a]\n[[a]]") "a" = 2 :=
  ⟨by decide, by decide⟩

/-- C7 amended: each `[[name]]` header occurrence (non-empty name) appends
exactly one new empty Table to the array currently bound to the name
(starting a fresh array when the name is absent or bound to something else)
and moves the cursor to that new Table; and when no line of the document
rebinds the name at the root — no `[name]` header and no key/value line
with that key — the final array's length equals the number of `[[name]]`
occurrences, in encounter order. -/
theorem spec_C7 :
    (∀ st raw n, classifyLine (pyStrip raw) = LineKind.arrHeader n → n ≠ "" →
       processLine st raw
         = ⟨dictSet st.root n (Entry.arr (getArr st.root n ++ [[]])),
            Cursor.inArr n⟩)
  ∧ (∀ s n, n ≠ "" →
       (∀ raw ∈ pySplitlines s, rebindsName (pyStrip raw) n = false) →
       (getArr (parse_toml s) n).length
         = countArrHeader (pySplitlines s) n) := by
  constructor
  · intro st raw n hcl hn
    unfold processLine
    rw [hcl]
    simp [hn]
  · intro s n hn h
    unfold parse_toml parseSt
    have hlen := arrLen_parseLines (pySplitlines s) ⟨[], Cursor.root⟩ hn h
    simpa [getArr, dictGet] using hlen

/-- C7 witness: two `[[a]]` headers with an interleaved assignment to a
different key give an array of length 2. -/
theorem spec_C7_witness :
    (getArr (parse_toml "[[a]]\nx = 1\n[[a]]") "a").length
      = countArrHeader (pySplitlines "[[a]]\nx = 1\n[[a]]") "a" :=
  spec_C7.2 "[[a]]\nx = 1\n[[a]]" "a" (by decide) (by decide)

/-- C8: parsing is total by construction (`parse_toml` is a Lean function),
and the permissiveness clauses hold: a line that is not blank, comment or
header and has no `=` or an empty key (classified `junk`) leaves the state
unchanged; `junk` classification means exactly "no `=`" or "empty trimmed
key"; a header with an empty name only resets the cursor to the root; and
when both numeric parses fail the value falls back to the original string
instead of propagating an error. -/
theorem spec_C8 :
    (∀ st raw, classifyLine (pyStrip raw) = LineKind.junk →
       processLine st raw = st)
  ∧ (∀ line, classifyLine line = LineKind.junk →
       pyIdxOf line.data '=' = Option.none ∨
         ∃ i, pyIdxOf line.data '=' = some i ∧
           pyStrip (String.mk (line.data.take i)) = "")
  ∧ (∀ st raw, classifyLine (pyStrip raw) = LineKind.arrHeader "" →
       processLine st raw = ⟨st.root, Cursor.root⟩)
  ∧ (∀ st raw, classifyLine (pyStrip raw) = LineKind.tblHeader "" →
       processLine st raw = ⟨st.root, Cursor.root⟩)
  ∧ (∀ v, v ≠ "" → quoteShape v = false → pyLower v ≠ "true" →
       pyLower v ≠ "false" →
       pyIntOfString? (stripUnderscores v) = Option.none →
       pyFloatValid (stripUnderscores v) = false →
       parse_value v = PyVal.str v) := by
  refine ⟨?_, ?_, ?_, ?_, ?_⟩
  · intro st raw hcl
    unfold processLine
    rw [hcl]
  · intro line h
    unfold classifyLine at h
    by_cases h0 : line = ""
    · rw [if_pos h0] at h; simp at h
    · rw [if_neg h0] at h
      by_cases hcm : pyStarts "#" line = true
      · rw [if_pos hcm] at h; simp at h
      · rw [if_neg hcm] at h
        by_cases ha : (pyStarts "[[" line && pyEnds "]]" line) = true
        · rw [if_pos ha] at h; simp at h
        · rw [if_neg ha] at h
          by_cases hb : (pyStarts "[" line && pyEnds "]" line) = true
          · rw [if_pos hb] at h; simp at h
          · rw [if_neg hb] at h
            cases hidx : pyIdxOf line.data '=' with
            | none => exact Or.inl rfl
            | some i =>
                rw [hidx] at h
                simp only [] at h
                by_cases hk : pyStrip (String.mk (line.data.take i)) = ""
                · exact Or.inr ⟨i, rfl, hk⟩
                · rw [if_neg hk] at h; simp at h
  · intro st raw hcl
    unfold processLine
    rw [hcl]
    rfl
  · intro st raw hcl
    unfold processLine
    rw [hcl]
    rfl
  · intro v h1 h2 h3 h4 h5 h6
    simp only [parse_value]
    rw [if_neg h1, if_neg (by simp [h2]), if_neg h3, if_neg h4, h5]
    simp [h6]

/-- C8 witness: an `=`-free line is a no-op, and a value neither quoted,
boolean nor numeric survives as itself. -/
theorem spec_C8_witness :
    processLine ⟨[], Cursor.root⟩ "nonsense" = ⟨[], Cursor.root⟩ ∧
    parse_value "v@lue" = PyVal.str "v@lue" :=
  ⟨spec_C8.1 ⟨[], Cursor.root⟩ "nonsense" (by decide),
   spec_C8.2.2.2.2 "v@lue" (by decide) (by decide) (by decide) (by decide)
     (by decide) (by decide)⟩

/-- C9: the cursor starts at the Document root — with no header line in the
document it stays there, so key/value lines before any header assign into
the root — a key/value line processed while the cursor is at the root binds
its key at the root, and a header with an empty name (`[]` or `[[]]`)
resets the cursor to the root (so following key/value lines also assign
into the root). -/
theorem spec_C9 :
    (∀ s, (∀ raw ∈ pySplitlines s,
        isHeaderKind (classifyLine (pyStrip raw)) = false) →
       (parseSt s).cur = Cursor.root)
  ∧ (∀ r raw k v, classifyLine (pyStrip raw) = LineKind.kv k v →
       processLine ⟨r, Cursor.root⟩ raw
         = ⟨dictSet r k (Entry.scalar (parse_value v)), Cursor.root⟩)
  ∧ (∀ st raw, classifyLine (pyStrip raw) = LineKind.arrHeader "" ∨
        classifyLine (pyStrip raw) = LineKind.tblHeader "" →
       processLine st raw = ⟨st.root, Cursor.root⟩) := by
  refine ⟨?_, ?_, ?_⟩
  · intro s h
    exact cur_parseLines (pySplitlines s) h
  · intro r raw k v hcl
    unfold processLine
    rw [hcl]
    rfl
  · intro st raw h
    rcases h with h | h <;> (unfold processLine; rw [h]; rfl)

/-- C9 witness: a header-free document ends with the cursor at the root. -/
theorem spec_C9_witness : (parseSt "x = 1\ny = 2").cur = Cursor.root :=
  spec_C9.1 "x = 1\ny = 2" (by decide)

/-- C10: value coercion never produces Python `None` (its result is always
a string, boolean, integer or float), so global lookup of a key bound to a
falsy scalar — `false`, `0`, `0.0` or the empty string — returns that
stored scalar rather than the caller's default. -/
theorem spec_C10 :
    (∀ v, isNoneVal (parse_value v) = false)
  ∧ call (parse_toml "a = false\nb = 0\nc = 0.0\nd = \"\"") "a"
      (PyVal.str "DEF") = PyVal.bool false
  ∧ call (parse_toml "a = false\nb = 0\nc = 0.0\nd = \"\"") "b"
      (PyVal.str "DEF") = PyVal.int 0
  ∧ call (parse_toml "a = false\nb = 0\nc = 0.0\nd = \"\"") "c"
      (PyVal.str "DEF") = PyVal.float "0.0"
  ∧ call (parse_toml "a = false\nb = 0\nc = 0.0\nd = \"\"") "d"
      (PyVal.str "DEF") = PyVal.str "" := by
  refine ⟨?_, by decide, by decide, by decide, by decide⟩
  intro v
  have h := parse_value_ne_pynone v
  cases hv : parse_value v
  · exact absurd hv h
  all_goals rfl

end Microtoml
